import Mathlib

/-!
Shallow embedding of the OntoAlert violation-monitoring system
(src/ontology.py, src/detector.py, src/camera_monitor.py,
src/bot_handler.py) together with theorems checking the specification.

Python floats are modelled as exact rationals (ℚ); pixel coordinates as
integers (ℤ); Python dicts of detection data as Lean structures; Python
exceptions as `Except`.
-/

namespace OntoAlert

/-! ## ontology.py -/

/-- Mirrors the per-type record loaded from the TTL ontology into
`ViolationOntology.violations_db` (ontology.py, `_load_from_ttl`). -/
structure ViolationData where
  article : String
  description : String
  fine_amount : ℚ
  fine_currency : String
  category : String
  severity : String
deriving DecidableEq, Repr

/-- The loaded knowledge base: association list from violation type to its
record, mirroring the Python dict `violations_db`. -/
abbrev ViolationsDb := List (String × ViolationData)

/-- The `context` dict passed to `classify_violation`; each flag models the
truthiness of `context.get(key, False)`. -/
structure Context where
  is_repeat : Bool := false
  public_place : Bool := false
  historical_object : Bool := false
  confidence : Option ℚ := none
deriving DecidableEq, Repr

/-- Mirrors the `Violation` dataclass of ontology.py (the wall-clock
`timestamp` and the mutable `evidence_image_path` are omitted; no claim
mentions them). -/
structure Violation where
  violation_type : String
  article : String
  description : String
  fine_amount : ℚ
  fine_currency : String
  confidence : Option ℚ
  location : Option String
  category : String
  severity : String
deriving DecidableEq, Repr

/-- The error raised by `classify_violation` on an unknown type
(`raise ValueError(f"Неизвестный тип нарушения: ...")`). -/
inductive ClassifyError where
  | unknownViolationType (violation_type : String)
deriving DecidableEq, Repr

/-- The fine-adjustment block of `classify_violation` (ontology.py lines
137-149): starting from the base fine, multiply by 2 if `is_repeat`, then
by 1.5 if `public_place` and the type is smoking, then by 3 if the type is
graffiti and `historical_object`. -/
def adjust_fine (violation_type : String) (fine : ℚ) (ctx : Context) : ℚ :=
  let f := if ctx.is_repeat then fine * 2 else fine
  let f := if ctx.public_place ∧ violation_type = "smoking" then f * 1.5 else f
  let f := if violation_type = "graffiti" ∧ ctx.historical_object then f * 3 else f
  f

/-- Mirrors `ViolationOntology.classify_violation` (ontology.py lines
115-162): unknown types raise; otherwise the fine is adjusted from the
base fine by the context rules and a `Violation` is returned. -/
def classify_violation (db : ViolationsDb) (violation_type : String)
    (location : Option String := none) (context : Option Context := none) :
    Except ClassifyError Violation :=
  match db.lookup violation_type with
  | none => .error (.unknownViolationType violation_type)
  | some vd =>
    let fine_amount :=
      match context with
      | none => vd.fine_amount
      | some ctx => adjust_fine violation_type vd.fine_amount ctx
    .ok { violation_type := violation_type
          article := vd.article
          description := vd.description
          fine_amount := fine_amount
          fine_currency := vd.fine_currency
          confidence := context.bind (·.confidence)
          location := location
          category := vd.category
          severity := vd.severity }

/-! ## detector.py -/

/-- One detection dict built in `detect_violations` (detector.py lines
101-107): class name, confidence, bounding box `(x1, y1, x2, y2)` and the
stored `center` field. -/
structure Detection where
  class_name : String
  confidence : ℚ
  bbox : ℤ × ℤ × ℤ × ℤ
  center : ℤ × ℤ
deriving DecidableEq, Repr

/-- A violation candidate dict as produced by the heuristic checks
(`{'type': ..., 'confidence': ..., 'bbox': ...}`). -/
structure Candidate where
  type : String
  confidence : ℚ
  bbox : ℤ × ℤ × ℤ × ℤ
deriving DecidableEq, Repr

/-- `_is_near_person` (detector.py lines 200-206): the object's center
must lie within the person's box expanded by a 50-pixel margin. -/
def is_near_person (person_bbox : ℤ × ℤ × ℤ × ℤ) (obj_center : ℤ × ℤ) : Bool :=
  let (px1, py1, px2, py2) := person_bbox
  let margin : ℤ := 50
  px1 - margin ≤ obj_center.1 && obj_center.1 ≤ px2 + margin &&
    (py1 - margin ≤ obj_center.2 && obj_center.2 ≤ py2 + margin)

/-- The `smoking_indicators` list of `_check_smoking` (detector.py line 216). -/
def smoking_indicators : List String :=
  ["cell phone", "remote", "cigarette", "lighter", "cup", "bottle"]

/-- The per-class confidence scaling of `_check_smoking` (detector.py lines
239-247): `min(cap, raw * factor)` with a class-specific cap and factor. -/
def smokingConfidence (class_name : String) (raw : ℚ) : ℚ :=
  if class_name = "cell phone" then min 0.75 (raw * 0.9)
  else if class_name = "remote" then min 0.70 (raw * 0.85)
  else if class_name = "cup" ∨ class_name = "bottle" then min 0.65 (raw * 0.75)
  else min 0.75 (raw * 0.9)

/-- The type-specific confidence ceiling of the scaling table of
`_check_smoking`: the first argument of each `min` (detector.py lines
239-247). -/
def smokingCeiling (class_name : String) : ℚ :=
  if class_name = "cell phone" then 0.75
  else if class_name = "remote" then 0.70
  else if class_name = "cup" ∨ class_name = "bottle" then 0.65
  else 0.75

/-- The face-region boundary of `_check_smoking` (detector.py line 230):
`py1 + (py2 - py1) * 0.5`. -/
def face_region_y (person : Detection) : ℚ :=
  let (_, py1, _, py2) := person.bbox
  (py1 : ℚ) + ((py2 : ℚ) - (py1 : ℚ)) * 0.5

/-- The condition under which the loop of `_check_smoking` returns at a
given nearby object: indicator class, center strictly above the face-region
boundary, and scaled confidence strictly above 0.45 (detector.py lines
224-257).  On any other object the loop continues. -/
def smokingQualifies (person : Detection) (obj : Detection) : Bool :=
  decide (obj.class_name ∈ smoking_indicators) &&
    decide ((obj.center.2 : ℚ) < face_region_y person) &&
    decide (smokingConfidence obj.class_name obj.confidence > 0.45)

/-- `_check_smoking` (detector.py lines 208-264): return a smoking
candidate for the first nearby object at which the loop returns, carrying
the person's bounding box; otherwise `None`. -/
def check_smoking (person : Detection) (nearby_objects : List Detection) :
    Option Candidate :=
  (nearby_objects.find? (smokingQualifies person)).map fun obj =>
    { type := "smoking"
      confidence := smokingConfidence obj.class_name obj.confidence
      bbox := person.bbox }

/-- The `litter_objects` list of `_check_littering` (detector.py line 272). -/
def litter_objects : List String := ["bottle", "cup", "bowl"]

/-- The history scan of `_check_littering` (detector.py lines 291-297):
whether any of the last 3 stored frames contains an object of the same
class whose center is within 100 pixels of `obj`'s center on both axes. -/
def was_before (history : List (List Detection)) (obj : Detection) : Bool :=
  (history.drop (history.length - 3)).any fun prev_frame =>
    prev_frame.any fun o =>
      o.class_name = obj.class_name &&
        |o.center.1 - obj.center.1| < 100 && |o.center.2 - obj.center.2| < 100

/-- The confidence computed by `_check_littering` for a qualifying litter
object (detector.py lines 287-299): base `raw * 0.8`, boosted `* 1.1` and
capped at 0.75 when the history holds at least 2 frames and no matching
object was seen in the last 3 of them. -/
def litteringConfidence (history : List (List Detection)) (obj : Detection) : ℚ :=
  let base := obj.confidence * 0.8
  if 2 ≤ history.length then
    if was_before history obj then base else min 0.75 (base * 1.1)
  else base

/-- The condition under which the loop of `_check_littering` returns at a
given nearby object: litter class, center strictly below `py2 - 50`, raw
confidence strictly above 0.5 and final confidence strictly above 0.5
(detector.py lines 274-306).  On any other object the loop continues. -/
def litteringQualifies (history : List (List Detection)) (person : Detection)
    (obj : Detection) : Bool :=
  let (_, _, _, py2) := person.bbox
  decide (obj.class_name ∈ litter_objects) &&
    decide (obj.center.2 > py2 - 50) &&
    decide (obj.confidence > 0.5) &&
    decide (litteringConfidence history obj > 0.5)

/-- `_check_littering` (detector.py lines 266-308): return a littering
candidate, carrying the person's bounding box, for the first nearby object
at which the loop returns; otherwise `None`. -/
def check_littering (history : List (List Detection)) (person : Detection)
    (nearby_objects : List Detection) : Option Candidate :=
  (nearby_objects.find? (litteringQualifies history person)).map fun obj =>
    { type := "littering"
      confidence := litteringConfidence history obj
      bbox := person.bbox }

/-- `_check_graffiti` (detector.py lines 310-326): always returns `None`. -/
def check_graffiti (_detections : List Detection) : Option Candidate := none

/-- The people filter of `_analyze_detections` (detector.py line 152):
person-class detections with confidence strictly above 0.3. -/
def peopleOf (detections : List Detection) : List Detection :=
  detections.filter fun d => d.class_name = "person" && d.confidence > 0.3

/-- The nearby-object filter of `_analyze_detections` (detector.py lines
168-175): detections other than the person itself whose center is near the
person's box. -/
def nearbyObjects (person : Detection) (detections : List Detection) :
    List Detection :=
  detections.filter fun obj => obj ≠ person && is_near_person person.bbox obj.center

/-- `_analyze_detections` (detector.py lines 137-198): if no person passes
the filter return the empty list; otherwise, for each person in order,
append the smoking candidate then the littering candidate when present,
and finally the (always absent) graffiti candidate. -/
def analyze_detections (history : List (List Detection))
    (detections : List Detection) : List Candidate :=
  let people := peopleOf detections
  if people.isEmpty then []
  else
    (people.flatMap fun person =>
      let nearby := nearbyObjects person detections
      (check_smoking person nearby).toList ++
        (check_littering history person nearby).toList) ++
      (check_graffiti detections).toList

/-- The detector state relevant to the claims: the `detection_history`
buffer (detector.py line 75). -/
structure DetectorState where
  detection_history : List (List Detection)
deriving DecidableEq, Repr

/-- `detect_violations` in heuristic (COCO) mode (detector.py lines
77-135): analyze the frame's detections against the current history, then
append the detections to the history, popping the oldest entry when the
length exceeds 10. -/
def detect_violations (s : DetectorState) (all_detections : List Detection) :
    List Candidate × DetectorState :=
  let violations := analyze_detections s.detection_history all_detections
  let h := s.detection_history ++ [all_detections]
  let h := if 10 < h.length then h.tail else h
  (violations, ⟨h⟩)

/-! ## camera_monitor.py -/

/-- The monitoring-loop state of `CameraMonitor.start_monitoring`
(camera_monitor.py lines 53-84): the `last_detection_time` wall-clock
value (seconds, as a rational), the current `violations` candidate list
used for rendering, and the detector's state. -/
structure MonitorState where
  last_detection_time : ℚ
  violations : List Candidate
  det : DetectorState
deriving DecidableEq, Repr

/-- One iteration of the monitoring loop body (camera_monitor.py lines
58-106) after a frame is acquired at wall-clock time `now`: if
`now - last_detection_time ≥ interval` the detector runs on the frame;
when it finds violations they are processed and `last_detection_time` is
set to `now`, otherwise `violations` is reset to the empty list.  When the
interval has not elapsed nothing changes and the previous `violations` are
reused for rendering.  The returned boolean records whether the detector
was invoked on this frame. -/
def monitor_step (interval : ℚ) (s : MonitorState) (now : ℚ)
    (frame_detections : List Detection) : MonitorState × Bool :=
  if now - s.last_detection_time ≥ interval then
    let violations := (detect_violations s.det frame_detections).1
    let det' := (detect_violations s.det frame_detections).2
    if violations.isEmpty then
      ({ last_detection_time := s.last_detection_time
         violations := []
         det := det' }, true)
    else
      ({ last_detection_time := now
         violations := violations
         det := det' }, true)
  else
    (s, false)

/-- Run the monitoring loop over a sequence of frames, each tagged with its
wall-clock acquisition time, recording for each frame whether the detector
was invoked. -/
def monitor_run (interval : ℚ) (s : MonitorState)
    (frames : List (ℚ × List Detection)) : MonitorState × List Bool :=
  match frames with
  | [] => (s, [])
  | (now, dets) :: rest =>
    let step := monitor_step interval s now dets
    let rec_result := monitor_run interval step.1 rest
    (rec_result.1, step.2 :: rec_result.2)

/-- `_process_violation` (camera_monitor.py lines 132-137): the evidence
image saved for a violation is the crop `frame[y1:y2, x1:x2]`, cut to the
candidate's bounding box, so this returns the region of the frame that is
persisted. -/
def process_violation_crop_region (violation_data : Candidate) : ℤ × ℤ × ℤ × ℤ :=
  violation_data.bbox

/-! ## bot_handler.py -/

/-- One iteration of the `best_by_type` reduction of
`BotHandler.handle_photo` (bot_handler.py lines 201-206): an existing
type's entry is replaced only on strictly greater confidence (keeping its
dict-insertion position); a new type is appended. -/
def best_by_type_step (acc : List (String × ℚ)) (v : Candidate) :
    List (String × ℚ) :=
  match acc.lookup v.type with
  | some c =>
    if v.confidence > c then
      acc.map fun p => if p.1 = v.type then (p.1, v.confidence) else p
    else acc
  | none => acc ++ [(v.type, v.confidence)]

/-- The `best_by_type` dict of `handle_photo` as an insertion-ordered
association list. -/
def best_by_type (violations : List Candidate) : List (String × ℚ) :=
  violations.foldl best_by_type_step []

/-- The descending-by-confidence order used by
`sorted(best_by_type.items(), key=lambda x: x[1], reverse=True)`. -/
def confDesc (a b : String × ℚ) : Prop := b.2 ≤ a.2

instance : DecidableRel confDesc := fun a b => inferInstanceAs (Decidable (b.2 ≤ a.2))

instance : IsTotal (String × ℚ) confDesc := ⟨fun a b => le_total b.2 a.2⟩

instance : IsTrans (String × ℚ) confDesc := ⟨fun _ _ _ h1 h2 => le_trans h2 h1⟩

/-- `c` is the highest confidence attained by candidates of type `t` in
`l` (the specification of one `best_by_type` entry). -/
def IsBest (l : List Candidate) (t : String) (c : ℚ) : Prop :=
  (∃ v ∈ l, v.type = t ∧ v.confidence = c) ∧
  ∀ v ∈ l, v.type = t → v.confidence ≤ c

/-- The `ordered` list of `handle_photo` (bot_handler.py line 209): the
per-type bests sorted by confidence descending, truncated to the top 3. -/
def handle_photo_ordered (violations : List Candidate) : List (String × ℚ) :=
  ((best_by_type violations).insertionSort confDesc).take 3

/-! ## Sample knowledge base (fine amounts from the spec's examples) -/

/-- Sample smoking record with base fine 500. -/
def smokingData : ViolationData :=
  { article := "ст. 6.24 КоАП РФ"
    description := "Курение в запрещенном месте"
    fine_amount := 500
    fine_currency := "RUB"
    category := "public_order"
    severity := "medium" }

/-- Sample graffiti record with base fine 5000. -/
def graffitiData : ViolationData :=
  { article := "ст. 7.17 КоАП РФ"
    description := "Нанесение граффити"
    fine_amount := 5000
    fine_currency := "RUB"
    category := "property"
    severity := "high" }

/-- A sample loaded knowledge base holding the spec's example base fines. -/
def demo_db : ViolationsDb := [("smoking", smokingData), ("graffiti", graffitiData)]

/-! ## Sample detections -/

/-- A well-formed person detection. -/
def demoPerson : Detection :=
  { class_name := "person", confidence := 0.9, bbox := (0, 0, 100, 200),
    center := (50, 100) }

/-- A cell-phone indicator in the upper half of `demoPerson`'s box. -/
def demoPhone : Detection :=
  { class_name := "cell phone", confidence := 0.9, bbox := (40, 40, 60, 60),
    center := (50, 50) }

/-- A cell-phone indicator in the lower half of `demoPerson`'s box. -/
def demoLowPhone : Detection :=
  { class_name := "cell phone", confidence := 0.9, bbox := (40, 140, 60, 160),
    center := (50, 150) }

/-- A bottle in `demoPerson`'s feet region with raw confidence 0.9. -/
def demoBottle : Detection :=
  { class_name := "bottle", confidence := 0.9, bbox := (40, 160, 60, 190),
    center := (50, 175) }

/-- A person detection whose bounding box is malformed (`x1 > x2`), with
a center consistent with Python's `(x1 + x2) // 2, (y1 + y2) // 2`. -/
def malformedPerson : Detection :=
  { class_name := "person", confidence := 0.9, bbox := (100, 0, 50, 200),
    center := (75, 100) }

/-- A sample classifier output with two smoking candidates and one
littering candidate. -/
def demoViolations : List Candidate :=
  [{ type := "smoking", confidence := 0.6, bbox := (0, 0, 1, 1) },
   { type := "littering", confidence := 0.7, bbox := (0, 0, 1, 1) },
   { type := "smoking", confidence := 0.8, bbox := (0, 0, 1, 1) }]

/-! ## Claims -/

/-- C1: for every violation type present in the loaded knowledge base,
`classify_violation` succeeds and its fine starts from that type's base
fine, multiplied by 2 when `is_repeat` is set, by 1.5 when `public_place`
is set and the type is smoking, and by 3 when `historical_object` is set
and the type is graffiti. -/
theorem classify_violation_fine_multipliers (db : ViolationsDb)
    (violation_type : String) (vd : ViolationData)
    (hdb : db.lookup violation_type = some vd)
    (location : Option String) (ctx : Context) :
    ∃ v, classify_violation db violation_type location (some ctx) = .ok v ∧
      v.fine_amount = vd.fine_amount *
        (if ctx.is_repeat then 2 else 1) *
        (if ctx.public_place ∧ violation_type = "smoking" then 1.5 else 1) *
        (if violation_type = "graffiti" ∧ ctx.historical_object then 3 else 1) := by
  unfold classify_violation
  rw [hdb]
  refine ⟨_, rfl, ?_⟩
  simp only [adjust_fine]
  split_ifs <;> ring

/-- Witness for C1: on the sample knowledge base, smoking (base 500) in a
public place is fined 750, graffiti (base 5000) on a historical object is
fined 15000, and repeat smoking in a public place is fined 1500. -/
theorem classify_violation_fine_multipliers_witness :
    demo_db.lookup "smoking" = some smokingData ∧
    demo_db.lookup "graffiti" = some graffitiData ∧
    (∃ v, classify_violation demo_db "smoking" none
        (some { public_place := true }) = .ok v ∧ v.fine_amount = 750) ∧
    (∃ v, classify_violation demo_db "graffiti" none
        (some { historical_object := true }) = .ok v ∧ v.fine_amount = 15000) ∧
    (∃ v, classify_violation demo_db "smoking" none
        (some { is_repeat := true, public_place := true }) = .ok v ∧
          v.fine_amount = 1500) := by
  have h1 : demo_db.lookup "smoking" = some smokingData := by decide
  have h2 : demo_db.lookup "graffiti" = some graffitiData := by decide
  refine ⟨h1, h2, ?_, ?_, ?_⟩
  · obtain ⟨v, hv, hf⟩ := classify_violation_fine_multipliers demo_db "smoking"
      smokingData h1 none { public_place := true }
    exact ⟨v, hv, by rw [hf]; norm_num [smokingData]⟩
  · obtain ⟨v, hv, hf⟩ := classify_violation_fine_multipliers demo_db "graffiti"
      graffitiData h2 none { historical_object := true }
    exact ⟨v, hv, by rw [hf]; norm_num [graffitiData]⟩
  · obtain ⟨v, hv, hf⟩ := classify_violation_fine_multipliers demo_db "smoking"
      smokingData h1 none { is_repeat := true, public_place := true }
    exact ⟨v, hv, by rw [hf]; norm_num [smokingData]⟩

/-- C5: `classify_violation` on a violation type that is not a key of the
loaded knowledge base fails with the unknown-violation-type error and
never returns a `Violation`, for every location and context argument. -/
theorem classify_violation_unknown_type (db : ViolationsDb)
    (violation_type : String) (location : Option String)
    (context : Option Context) (h : db.lookup violation_type = none) :
    classify_violation db violation_type location context =
        .error (.unknownViolationType violation_type) ∧
      ∀ v, classify_violation db violation_type location context ≠ .ok v := by
  have he : classify_violation db violation_type location context =
      .error (.unknownViolationType violation_type) := by
    simp only [classify_violation, h]
  exact ⟨he, fun v hv => by rw [he] at hv; exact Except.noConfusion hv⟩

/-- Witness for C5: the type `"flying"` is absent from the sample knowledge
base and its classification fails with the unknown-violation-type error. -/
theorem classify_violation_unknown_type_witness :
    demo_db.lookup "flying" = none ∧
    classify_violation demo_db "flying" (some "park")
        (some { is_repeat := true }) =
      .error (.unknownViolationType "flying") := by
  have h : demo_db.lookup "flying" = none := by decide
  exact ⟨h, (classify_violation_unknown_type demo_db "flying" (some "park")
    (some { is_repeat := true }) h).1⟩

/-- Helper: a candidate returned by `check_smoking` carries the person's
bounding box, and it comes from the first qualifying nearby object. -/
lemma check_smoking_eq_some (person : Detection) (nearby : List Detection)
    (c : Candidate) (h : check_smoking person nearby = some c) :
    ∃ obj, nearby.find? (smokingQualifies person) = some obj ∧
      c = { type := "smoking"
            confidence := smokingConfidence obj.class_name obj.confidence
            bbox := person.bbox } := by
  simp only [check_smoking, Option.map_eq_some'] at h
  obtain ⟨obj, h1, h2⟩ := h
  exact ⟨obj, h1, h2.symm⟩

/-- Helper: a candidate returned by `check_littering` carries the person's
bounding box, and it comes from the first qualifying nearby object. -/
lemma check_littering_eq_some (history : List (List Detection))
    (person : Detection) (nearby : List Detection) (c : Candidate)
    (h : check_littering history person nearby = some c) :
    ∃ obj, nearby.find? (litteringQualifies history person) = some obj ∧
      c = { type := "littering"
            confidence := litteringConfidence history obj
            bbox := person.bbox } := by
  simp only [check_littering, Option.map_eq_some'] at h
  obtain ⟨obj, h1, h2⟩ := h
  exact ⟨obj, h1, h2.symm⟩

/-- Helper: membership in the people filter means person class and
confidence strictly above 0.3. -/
lemma mem_peopleOf {detections : List Detection} {d : Detection}
    (h : d ∈ peopleOf detections) :
    d ∈ detections ∧ d.class_name = "person" ∧ d.confidence > 0.3 := by
  have := List.mem_filter.mp h
  simpa only [Bool.and_eq_true, decide_eq_true_eq, and_assoc] using this

/-- C6: if a detection list contains no person-class detection with
confidence at or above 0.3, heuristic-mode classification returns the
empty candidate list. -/
theorem analyze_detections_no_person (history : List (List Detection))
    (detections : List Detection)
    (h : ∀ d ∈ detections, d.class_name = "person" → d.confidence < 0.3) :
    analyze_detections history detections = [] := by
  have hp : peopleOf detections = [] := by
    simp only [peopleOf, List.filter_eq_nil_iff, Bool.and_eq_true,
      decide_eq_true_eq, not_and]
    intro d hd hperson
    exact not_lt.mpr (le_of_lt (h d hd hperson))
  simp [analyze_detections, hp]

/-- Witness for C6: a frame holding only a low-confidence person and a
bottle yields no candidates. -/
theorem analyze_detections_no_person_witness :
    analyze_detections []
      [{ class_name := "person", confidence := 0.2, bbox := (0, 0, 100, 200),
         center := (50, 100) },
       { class_name := "bottle", confidence := 0.9, bbox := (40, 160, 60, 190),
         center := (50, 175) }] = [] := by
  apply analyze_detections_no_person
  intro d hd hperson
  fin_cases hd
  · norm_num
  · simp_all

/-- Helper: one `detect_violations` call keeps the history length at or
below 10. -/
lemma detect_violations_history_step (s : DetectorState)
    (dets : List Detection) (h : s.detection_history.length ≤ 10) :
    ((detect_violations s dets).2).detection_history.length ≤ 10 := by
  simp only [detect_violations]
  split
  · next hlen =>
    simp only [List.length_tail, List.length_append, List.length_singleton]
    omega
  · next hlen =>
    simp only [List.length_append, List.length_singleton] at hlen ⊢
    omega

/-- C7: the detection history buffer never exceeds 10 entries: from any
state already within the bound — in particular the initial empty state —
the bound holds after each of any number of `detect_violations` calls. -/
theorem detect_violations_history_bounded (s : DetectorState)
    (h : s.detection_history.length ≤ 10) :
    (∀ dets, ((detect_violations s dets).2).detection_history.length ≤ 10) ∧
    ∀ frames : List (List Detection),
      ((frames.foldl (fun st f => (detect_violations st f).2) s)).detection_history.length ≤ 10 := by
  refine ⟨fun dets => detect_violations_history_step s dets h, fun frames => ?_⟩
  induction frames generalizing s with
  | nil => exact h
  | cons f rest ih =>
    exact ih _ (detect_violations_history_step s f h)

/-- Witness for C7: starting from the empty history, twelve detect calls
leave the history at the 10-entry cap. -/
theorem detect_violations_history_bounded_witness :
    (([] : List (List Detection)).length ≤ 10) ∧
    ((((List.replicate 12 ([] : List Detection)).foldl
        (fun st f => (detect_violations st f).2))
          ⟨[]⟩).detection_history.length ≤ 10) :=
  ⟨by decide, (detect_violations_history_bounded ⟨[]⟩ (by decide)).2 _⟩

/-- C10: every candidate emitted in heuristic mode carries some detected
person's bounding box as its `bbox`, so the evidence crop region persisted
by `_process_violation` for it is that person region of the frame. -/
theorem heuristic_candidate_bbox_is_person (history : List (List Detection))
    (detections : List Detection) (c : Candidate)
    (hc : c ∈ analyze_detections history detections) :
    ∃ person ∈ detections, person.class_name = "person" ∧
      c.bbox = person.bbox ∧
      process_violation_crop_region c = person.bbox := by
  simp only [analyze_detections, check_graffiti, Option.toList_none,
    List.append_nil] at hc
  split at hc
  · exact absurd hc (List.not_mem_nil c)
  · obtain ⟨person, hpmem, hcand⟩ := List.mem_flatMap.mp hc
    obtain ⟨hpdet, hpclass, -⟩ := mem_peopleOf hpmem
    refine ⟨person, hpdet, hpclass, ?_⟩
    rcases List.mem_append.mp hcand with hs | hl
    · have hsome : check_smoking person (nearbyObjects person detections) = some c :=
        Option.mem_def.mp (Option.mem_toList.mp hs)
      obtain ⟨obj, -, hc⟩ := check_smoking_eq_some _ _ _ hsome
      subst hc
      exact ⟨rfl, rfl⟩
    · have hsome : check_littering history person (nearbyObjects person detections) = some c :=
        Option.mem_def.mp (Option.mem_toList.mp hl)
      obtain ⟨obj, -, hc⟩ := check_littering_eq_some _ _ _ _ hsome
      subst hc
      exact ⟨rfl, rfl⟩

/-- Witness for C10: on a concrete frame the smoking candidate found for
`demoPerson` carries `demoPerson`'s bounding box and its evidence crop is
that person region. -/
theorem heuristic_candidate_bbox_is_person_witness :
    (({ type := "smoking", confidence := 0.75, bbox := (0, 0, 100, 200) } : Candidate)
        ∈ analyze_detections [] [demoPerson, demoPhone]) ∧
    ∃ person ∈ [demoPerson, demoPhone], person.class_name = "person" ∧
      ({ type := "smoking", confidence := 0.75, bbox := (0, 0, 100, 200) } : Candidate).bbox
          = person.bbox ∧
      process_violation_crop_region
          { type := "smoking", confidence := 0.75, bbox := (0, 0, 100, 200) } = person.bbox := by
  have hmem : ({ type := "smoking", confidence := 0.75, bbox := (0, 0, 100, 200) } : Candidate)
      ∈ analyze_detections [] [demoPerson, demoPhone] := by
    norm_num [analyze_detections, peopleOf, nearbyObjects, is_near_person, check_smoking,
      check_littering, check_graffiti, List.find?, List.filter, smokingQualifies,
      litteringQualifies, smoking_indicators, litter_objects, smokingConfidence,
      litteringConfidence, was_before, face_region_y, demoPerson, demoPhone]
  exact ⟨hmem, heuristic_candidate_bbox_is_person [] [demoPerson, demoPhone] _ hmem⟩

/-- Helper: the scaled smoking confidence never exceeds the class's
ceiling. -/
lemma smokingConfidence_le_ceiling (class_name : String) (raw : ℚ) :
    smokingConfidence class_name raw ≤ smokingCeiling class_name := by
  simp only [smokingConfidence, smokingCeiling]
  split_ifs <;> exact min_le_left _ _

/-- Helper: every class ceiling is at most 0.75. -/
lemma smokingCeiling_le (class_name : String) : smokingCeiling class_name ≤ 0.75 := by
  simp only [smokingCeiling]
  split_ifs <;> norm_num

/-- C4: every smoking candidate has confidence strictly above 0.45 and at
most the type-specific ceiling of its indicator class (which is at most
0.75); it is decided by the first qualifying indicator in the nearby list;
and an indicator whose center lies at or below the person's vertical
midpoint never qualifies. -/
theorem check_smoking_confidence_spec (person : Detection)
    (nearby : List Detection) :
    (∀ c, check_smoking person nearby = some c →
      0.45 < c.confidence ∧ c.confidence ≤ 0.75 ∧
      ∃ obj, nearby.find? (smokingQualifies person) = some obj ∧
        c.confidence = smokingConfidence obj.class_name obj.confidence ∧
        c.confidence ≤ smokingCeiling obj.class_name) ∧
    ∀ obj : Detection, face_region_y person ≤ (obj.center.2 : ℚ) →
      smokingQualifies person obj = false := by
  constructor
  · intro c hc
    obtain ⟨obj, hfind, hceq⟩ := check_smoking_eq_some person nearby c hc
    have hq := List.find?_some hfind
    simp only [smokingQualifies, Bool.and_eq_true, decide_eq_true_eq] at hq
    obtain ⟨⟨-, -⟩, hconf⟩ := hq
    subst hceq
    exact ⟨hconf, le_trans (smokingConfidence_le_ceiling _ _) (smokingCeiling_le _),
      obj, hfind, rfl, smokingConfidence_le_ceiling _ _⟩
  · intro obj hobj
    have hnot : ¬ ((obj.center.2 : ℚ) < face_region_y person) := not_lt.mpr hobj
    simp [smokingQualifies, hnot]

/-- Witness for C4: on a concrete person, a phone in the upper half yields
a candidate satisfying the bounds, and a phone at the lower half never
qualifies. -/
theorem check_smoking_confidence_spec_witness :
    (check_smoking demoPerson [demoPhone] =
      some { type := "smoking", confidence := 0.75, bbox := (0, 0, 100, 200) }) ∧
    (0.45 < (0.75 : ℚ) ∧ (0.75 : ℚ) ≤ 0.75 ∧
      ∃ obj, [demoPhone].find? (smokingQualifies demoPerson) = some obj ∧
        (0.75 : ℚ) = smokingConfidence obj.class_name obj.confidence ∧
        (0.75 : ℚ) ≤ smokingCeiling obj.class_name) ∧
    smokingQualifies demoPerson demoLowPhone = false := by
  have hs : check_smoking demoPerson [demoPhone] =
      some { type := "smoking", confidence := 0.75, bbox := (0, 0, 100, 200) } := by
    norm_num [check_smoking, List.find?, smokingQualifies, smoking_indicators,
      smokingConfidence, face_region_y, demoPerson, demoPhone]
  refine ⟨hs, ?_, ?_⟩
  · simpa using (check_smoking_confidence_spec demoPerson [demoPhone]).1
      { type := "smoking", confidence := 0.75, bbox := (0, 0, 100, 200) } hs
  · exact (check_smoking_confidence_spec demoPerson [demoLowPhone]).2 demoLowPhone
      (by norm_num [face_region_y, demoPerson, demoLowPhone])

/-- Counterexample for C2: with an empty history no object of the bottle's
class was seen in the last 3 history frames, yet the qualifying bottle's
confidence stays at the unboosted `0.9 × 0.8 = 0.72`, while the claimed
boosted value would be `min 0.75 (0.72 × 1.1) = 0.75`. -/
theorem littering_boost_counterexample :
    was_before [] demoBottle = false ∧
    check_littering [] demoPerson [demoBottle] =
      some { type := "littering", confidence := 0.72, bbox := (0, 0, 100, 200) } ∧
    (0.72 : ℚ) ≠ min 0.75 (0.72 * 1.1) := by
  refine ⟨by decide, ?_, by norm_num⟩
  norm_num [check_littering, List.find?, litteringQualifies, litteringConfidence,
    was_before, litter_objects, demoPerson, demoBottle]

/-- C2 (amended): a qualifying littering candidate's confidence is the
base `raw × 0.8`, boosted `× 1.1` and capped at 0.75 exactly when the
history holds at least 2 frames AND no object of the same class was within
100 px on both axes in the last 3 history frames; the boosted value never
exceeds 0.75. -/
theorem littering_confidence_spec (history : List (List Detection))
    (person : Detection) (nearby : List Detection) (c : Candidate)
    (hc : check_littering history person nearby = some c) :
    ∃ obj, nearby.find? (litteringQualifies history person) = some obj ∧
      0.5 < obj.confidence ∧
      c.confidence = (if 2 ≤ history.length ∧ was_before history obj = false
        then min 0.75 (obj.confidence * 0.8 * 1.1)
        else obj.confidence * 0.8) ∧
      (2 ≤ history.length ∧ was_before history obj = false →
        c.confidence ≤ 0.75) := by
  obtain ⟨obj, hfind, hceq⟩ := check_littering_eq_some history person nearby c hc
  have hq := List.find?_some hfind
  simp only [litteringQualifies, Bool.and_eq_true, decide_eq_true_eq] at hq
  obtain ⟨⟨⟨-, -⟩, hraw⟩, -⟩ := hq
  subst hceq
  refine ⟨obj, hfind, hraw, ?_, ?_⟩
  · show litteringConfidence history obj = _
    by_cases h1 : 2 ≤ history.length
    · by_cases h2 : was_before history obj = true
      · have h3 : ¬(2 ≤ history.length ∧ was_before history obj = false) := by
          rintro ⟨-, hf⟩
          rw [h2] at hf
          exact Bool.noConfusion hf
        simp only [litteringConfidence, if_pos h1, if_pos h2, if_neg h3]
      · have h3 : 2 ≤ history.length ∧ was_before history obj = false :=
          ⟨h1, Bool.eq_false_iff.mpr h2⟩
        simp only [litteringConfidence, if_pos h1, if_neg h2, if_pos h3, mul_assoc]
    · have h3 : ¬(2 ≤ history.length ∧ was_before history obj = false) :=
        fun h => h1 h.1
      simp only [litteringConfidence, if_neg h1, if_neg h3]
  · rintro ⟨h1, h2⟩
    have hno : ¬ (was_before history obj = true) := by simp [h2]
    show litteringConfidence history obj ≤ _
    simp only [litteringConfidence, if_pos h1, if_neg hno]
    exact min_le_left _ _

/-- Witness for C2 (amended): with two history frames and no prior bottle,
the emitted confidence is the boosted and capped `0.75`. -/
theorem littering_confidence_spec_witness :
    check_littering [[], []] demoPerson [demoBottle] =
      some { type := "littering", confidence := 0.75, bbox := (0, 0, 100, 200) } ∧
    ∃ obj, [demoBottle].find? (litteringQualifies [[], []] demoPerson) = some obj ∧
      0.5 < obj.confidence ∧
      ({ type := "littering", confidence := 0.75,
         bbox := ((0 : ℤ), (0 : ℤ), (100 : ℤ), (200 : ℤ)) } : Candidate).confidence =
        (if 2 ≤ ([[], []] : List (List Detection)).length ∧
            was_before [[], []] obj = false
          then min 0.75 (obj.confidence * 0.8 * 1.1)
          else obj.confidence * 0.8) ∧
      (2 ≤ ([[], []] : List (List Detection)).length ∧
          was_before [[], []] obj = false →
        ({ type := "littering", confidence := 0.75,
           bbox := ((0 : ℤ), (0 : ℤ), (100 : ℤ), (200 : ℤ)) } : Candidate).confidence ≤ 0.75) := by
  have hl : check_littering [[], []] demoPerson [demoBottle] =
      some { type := "littering", confidence := 0.75, bbox := (0, 0, 100, 200) } := by
    norm_num [check_littering, List.find?, litteringQualifies, litteringConfidence,
      was_before, litter_objects, demoPerson, demoBottle]
  exact ⟨hl, littering_confidence_spec [[], []] demoPerson [demoBottle] _ hl⟩

/-- Counterexample for C3: with detection interval 5 and a first detector
run at time 5 that finds nothing, the detector runs again at time 6, only
1 second after the previous detector invocation. -/
theorem monitor_interval_counterexample :
    (monitor_run 5 ⟨0, [], ⟨[]⟩⟩ [(5, []), (6, [])]).2 = [true, true] ∧
    (6 - 5 : ℚ) < 5 := by
  constructor
  · norm_num [monitor_run, monitor_step, detect_violations, analyze_detections,
      peopleOf, List.filter]
  · norm_num

/-- C3 (amended): in each monitoring iteration the detector runs exactly
when the wall-clock time since `last_detection_time` — the time of the
most recent detection that yielded violations, initially the monitoring
start — is at least the configured interval; when it does not run the
state (including the previous candidate set used for rendering) is
unchanged; `last_detection_time` advances to the current time only when
the detector ran and found violations. -/
theorem monitor_step_spec (interval : ℚ) (s : MonitorState) (now : ℚ)
    (dets : List Detection) :
    ((monitor_step interval s now dets).2 = true ↔
      interval ≤ now - s.last_detection_time) ∧
    ((monitor_step interval s now dets).2 = false →
      (monitor_step interval s now dets).1 = s) ∧
    ((monitor_step interval s now dets).1.violations =
      if interval ≤ now - s.last_detection_time
        then (detect_violations s.det dets).1 else s.violations) ∧
    ((monitor_step interval s now dets).1.last_detection_time =
      if interval ≤ now - s.last_detection_time ∧
          (detect_violations s.det dets).1 ≠ []
        then now else s.last_detection_time) := by
  by_cases h : interval ≤ now - s.last_detection_time
  · by_cases he : (detect_violations s.det dets).1.isEmpty
    · have he' : (detect_violations s.det dets).1 = [] := by
        simpa [List.isEmpty_iff] using he
      simp [monitor_step, ge_iff_le, h, he, he']
    · have he' : (detect_violations s.det dets).1 ≠ [] := by
        simpa [List.isEmpty_iff] using he
      simp [monitor_step, ge_iff_le, h, he, he']
  · simp [monitor_step, ge_iff_le, h]

/-- Witness for C3 (amended): with interval 5 and last detection at time
0, a frame at time 3 skips the detector and leaves the state unchanged. -/
theorem monitor_step_spec_witness :
    (monitor_step 5 ⟨0, [], ⟨[]⟩⟩ 3 []).2 = false ∧
    (monitor_step 5 ⟨0, [], ⟨[]⟩⟩ 3 []).1 = ⟨0, [], ⟨[]⟩⟩ := by
  have hskip : (monitor_step 5 ⟨0, [], ⟨[]⟩⟩ 3 []).2 = false := by
    norm_num [monitor_step]
  exact ⟨hskip, (monitor_step_spec 5 ⟨0, [], ⟨[]⟩⟩ 3 []).2.1 hskip⟩

/-- Counterexample for C8: a person detection whose bounding box is
malformed (`x1 = 100 > 50 = x2`) is not skipped: it still acts as an
actor and yields a smoking candidate carrying its malformed box. -/
theorem malformed_bbox_counterexample :
    malformedPerson.bbox.2.2.1 ≤ malformedPerson.bbox.1 ∧
    analyze_detections [] [malformedPerson, demoPhone] =
      [{ type := "smoking", confidence := 0.75, bbox := (100, 0, 50, 200) }] := by
  refine ⟨by decide, ?_⟩
  have hpeople : peopleOf [malformedPerson, demoPhone] = [malformedPerson] := by
    norm_num [peopleOf, malformedPerson, demoPhone]
    decide
  have hnear : nearbyObjects malformedPerson [malformedPerson, demoPhone] =
      [demoPhone] := by
    norm_num [nearbyObjects, is_near_person, malformedPerson, demoPhone]
  have hsmoke : check_smoking malformedPerson [demoPhone] =
      some { type := "smoking", confidence := 0.75, bbox := (100, 0, 50, 200) } := by
    norm_num [check_smoking, List.find?, smokingQualifies, smoking_indicators,
      smokingConfidence, face_region_y, malformedPerson, demoPhone]
  have hlitter : check_littering [] malformedPerson [demoPhone] = none := by
    have h1 : decide ("cell phone" = "bottle") = false := by rfl
    have h2 : decide ("cell phone" = "cup") = false := by rfl
    have h3 : decide ("cell phone" = "bowl") = false := by rfl
    norm_num [check_littering, List.find?, litteringQualifies, litter_objects,
      demoPhone, h1, h2, h3]
  simp [analyze_detections, hpeople, hnear, hsmoke, hlitter, check_graffiti]

/-- C8 (amended): heuristic classification applies no well-formedness
filter to bounding boxes: every detection record passing the person filter
contributes as an actor, and every record near a person contributes as a
nearby indicator object, regardless of its box's shape (and no error is
raised — the functions are total). -/
theorem analyze_detections_no_bbox_filter (detections : List Detection)
    (d : Detection) (hmem : d ∈ detections) :
    (d.class_name = "person" → 0.3 < d.confidence → d ∈ peopleOf detections) ∧
    ∀ person : Detection, d ≠ person →
      is_near_person person.bbox d.center = true →
      d ∈ nearbyObjects person detections := by
  constructor
  · intro h1 h2
    refine List.mem_filter.mpr ⟨hmem, ?_⟩
    simp [h1, h2]
  · intro person hne hnear
    refine List.mem_filter.mpr ⟨hmem, ?_⟩
    simp [hne, hnear]

/-- Witness for C8 (amended): the malformed-box person is accepted by the
people filter, and the phone near it is accepted as a nearby object. -/
theorem analyze_detections_no_bbox_filter_witness :
    malformedPerson ∈ peopleOf [malformedPerson, demoPhone] ∧
    demoPhone ∈ nearbyObjects malformedPerson [malformedPerson, demoPhone] :=
  ⟨(analyze_detections_no_bbox_filter [malformedPerson, demoPhone] malformedPerson
      (List.mem_cons_self _ _)).1 rfl (by norm_num [malformedPerson]),
   (analyze_detections_no_bbox_filter [malformedPerson, demoPhone] demoPhone
      (List.mem_cons_of_mem _ (List.mem_cons_self _ _))).2 malformedPerson
      (by simp [demoPhone, malformedPerson]) (by decide)⟩

/-- Helper: a key whose lookup is `none` has no entry in the list. -/
lemma lookup_none_not_mem (acc : List (String × ℚ)) (t : String)
    (h : acc.lookup t = none) : ∀ c, (t, c) ∉ acc := by
  induction acc with
  | nil => exact fun c hc => absurd hc (List.not_mem_nil _)
  | cons p rest ih =>
    obtain ⟨k, b⟩ := p
    intro c hc
    by_cases hk : t = k
    · subst hk
      rw [List.lookup_cons, beq_self_eq_true] at h
      exact Option.noConfusion h
    · have hb : (t == k) = false := beq_eq_false_iff_ne.mpr hk
      rw [List.lookup_cons, hb] at h
      rcases List.mem_cons.mp hc with he | hm
      · exact hk (congrArg Prod.fst he)
      · exact ih h c hm

/-- Helper: a successful lookup is a membership. -/
lemma lookup_some_mem (acc : List (String × ℚ)) (t : String) (c : ℚ)
    (h : acc.lookup t = some c) : (t, c) ∈ acc := by
  induction acc with
  | nil => exact Option.noConfusion h
  | cons p rest ih =>
    obtain ⟨k, b⟩ := p
    by_cases hk : t = k
    · subst hk
      rw [List.lookup_cons, beq_self_eq_true] at h
      obtain rfl : b = c := Option.some.inj h
      exact List.mem_cons_self _ _
    · have hb : (t == k) = false := beq_eq_false_iff_ne.mpr hk
      rw [List.lookup_cons, hb] at h
      exact List.mem_cons_of_mem _ (ih h)

/-- Helper: the per-type maximum is unique. -/
lemma isBest_unique {l : List Candidate} {t : String} {c c' : ℚ}
    (h : IsBest l t c) (h' : IsBest l t c') : c = c' := by
  obtain ⟨⟨v, hv, hvt, hvc⟩, hub⟩ := h
  obtain ⟨⟨w, hw, hwt, hwc⟩, hub'⟩ := h'
  refine le_antisymm ?_ ?_
  · rw [← hvc]
    exact hub' v hv hvt
  · rw [← hwc]
    exact hub w hw hwt

/-- Helper: appending a candidate of a different type does not change which
confidences are best for a type. -/
lemma isBest_append_ne {l : List Candidate} {v : Candidate} {t : String}
    {c : ℚ} (ht : t ≠ v.type) : IsBest (l ++ [v]) t c ↔ IsBest l t c := by
  constructor
  · rintro ⟨⟨w, hw, hwt, hwc⟩, hub⟩
    rcases List.mem_append.mp hw with hwl | hwv
    · exact ⟨⟨w, hwl, hwt, hwc⟩, fun u hu hut => hub u (List.mem_append_left _ hu) hut⟩
    · have heq := List.mem_singleton.mp hwv
      rw [heq] at hwt
      exact absurd hwt.symm ht
  · rintro ⟨⟨w, hwl, hwt, hwc⟩, hub⟩
    refine ⟨⟨w, List.mem_append_left _ hwl, hwt, hwc⟩, ?_⟩
    intro u hu hut
    rcases List.mem_append.mp hu with hul | huv
    · exact hub u hul hut
    · have heq := List.mem_singleton.mp huv
      rw [heq] at hut
      exact absurd hut.symm ht

/-- Helper: appending a candidate of a type not seen before makes its own
confidence the unique best for that type. -/
lemma isBest_append_new {l : List Candidate} {v : Candidate} {c : ℚ}
    (hnew : ∀ w ∈ l, w.type ≠ v.type) :
    IsBest (l ++ [v]) v.type c ↔ c = v.confidence := by
  constructor
  · rintro ⟨⟨w, hw, hwt, hwc⟩, -⟩
    rcases List.mem_append.mp hw with hwl | hwv
    · exact absurd hwt (hnew w hwl)
    · have heq := List.mem_singleton.mp hwv
      rw [heq] at hwc
      exact hwc.symm
  · rintro rfl
    refine ⟨⟨v, List.mem_append_right _ (List.mem_singleton.mpr rfl), rfl, rfl⟩, ?_⟩
    intro u hu hut
    rcases List.mem_append.mp hu with hul | huv
    · exact absurd hut (hnew u hul)
    · have heq := List.mem_singleton.mp huv
      rw [heq]

/-- Helper: appending a candidate strictly above the previous best of its
type makes its confidence the new unique best. -/
lemma isBest_append_gt {l : List Candidate} {v : Candidate} {c c0 : ℚ}
    (h0 : IsBest l v.type c0) (hgt : c0 < v.confidence) :
    IsBest (l ++ [v]) v.type c ↔ c = v.confidence := by
  obtain ⟨⟨w0, hw0, hw0t, hw0c⟩, hub0⟩ := h0
  constructor
  · rintro ⟨⟨w, hw, hwt, hwc⟩, hub⟩
    have hvc : v.confidence ≤ c :=
      hub v (List.mem_append_right _ (List.mem_singleton.mpr rfl)) rfl
    rcases List.mem_append.mp hw with hwl | hwv
    · have hwle : w.confidence ≤ c0 := hub0 w hwl hwt
      rw [hwc] at hwle
      linarith
    · have heq := List.mem_singleton.mp hwv
      rw [heq] at hwc
      exact hwc.symm
  · rintro rfl
    refine ⟨⟨v, List.mem_append_right _ (List.mem_singleton.mpr rfl), rfl, rfl⟩, ?_⟩
    intro u hu hut
    rcases List.mem_append.mp hu with hul | huv
    · exact le_trans (hub0 u hul hut) (le_of_lt hgt)
    · have heq := List.mem_singleton.mp huv
      rw [heq]

/-- Helper: appending a candidate at or below the previous best of its type
leaves that best unchanged. -/
lemma isBest_append_le {l : List Candidate} {v : Candidate} {c c0 : ℚ}
    (h0 : IsBest l v.type c0) (hle : v.confidence ≤ c0) :
    IsBest (l ++ [v]) v.type c ↔ c = c0 := by
  obtain ⟨⟨w0, hw0, hw0t, hw0c⟩, hub0⟩ := h0
  constructor
  · rintro ⟨⟨w, hw, hwt, hwc⟩, hub⟩
    have hc0c : c0 ≤ c := by
      rw [← hw0c]
      exact hub w0 (List.mem_append_left _ hw0) hw0t
    rcases List.mem_append.mp hw with hwl | hwv
    · have hcc0 : c ≤ c0 := by
        rw [← hwc]
        exact hub0 w hwl hwt
      exact le_antisymm hcc0 hc0c
    · have heq := List.mem_singleton.mp hwv
      rw [heq] at hwc
      refine le_antisymm ?_ hc0c
      rw [← hwc]
      exact hle
  · rintro rfl
    refine ⟨⟨w0, List.mem_append_left _ hw0, hw0t, hw0c⟩, ?_⟩
    intro u hu hut
    rcases List.mem_append.mp hu with hul | huv
    · exact hub0 u hul hut
    · have heq := List.mem_singleton.mp huv
      rw [heq]
      exact hle

/-- Helper: the `best_by_type` association list holds exactly the per-type
maxima of the processed candidates, and every processed type has an entry. -/
lemma best_by_type_char (l : List Candidate) :
    (∀ t c, (t, c) ∈ best_by_type l ↔ IsBest l t c) ∧
    ∀ v ∈ l, ∃ c, (v.type, c) ∈ best_by_type l := by
  induction l using List.reverseRecOn with
  | nil =>
    constructor
    · intro t c
      simp [best_by_type, IsBest]
    · intro v hv
      exact absurd hv (List.not_mem_nil _)
  | append_singleton l v ih =>
    obtain ⟨ih1, ih2⟩ := ih
    have hconcat : best_by_type (l ++ [v]) = best_by_type_step (best_by_type l) v := by
      simp [best_by_type, List.foldl_append]
    cases hl : (best_by_type l).lookup v.type with
    | none =>
      have hno : ∀ c, (v.type, c) ∉ best_by_type l := lookup_none_not_mem _ _ hl
      have hnew : ∀ w ∈ l, w.type ≠ v.type := by
        intro w hw he
        obtain ⟨c, hc⟩ := ih2 w hw
        rw [he] at hc
        exact hno c hc
      have hstep : best_by_type (l ++ [v]) =
          best_by_type l ++ [(v.type, v.confidence)] := by
        rw [hconcat]
        simp [best_by_type_step, hl]
      constructor
      · intro t c
        rw [hstep, List.mem_append, List.mem_singleton, Prod.mk.injEq]
        by_cases ht : t = v.type
        · subst ht
          rw [isBest_append_new hnew]
          constructor
          · rintro (hm | ⟨-, rfl⟩)
            · exact absurd hm (hno c)
            · rfl
          · rintro rfl
            exact Or.inr ⟨rfl, rfl⟩
        · rw [isBest_append_ne ht, ← ih1 t c]
          constructor
          · rintro (hm | ⟨he, -⟩)
            · exact hm
            · exact absurd he ht
          · exact fun hm => Or.inl hm
      · intro w hw
        rcases List.mem_append.mp hw with hwl | hwv
        · obtain ⟨c, hc⟩ := ih2 w hwl
          refine ⟨c, ?_⟩
          rw [hstep]
          exact List.mem_append_left _ hc
        · have heq := List.mem_singleton.mp hwv
          refine ⟨v.confidence, ?_⟩
          rw [heq, hstep]
          exact List.mem_append_right _ (List.mem_singleton.mpr rfl)
    | some c0 =>
      have hmem0 : (v.type, c0) ∈ best_by_type l := lookup_some_mem _ _ _ hl
      have hbest0 : IsBest l v.type c0 := (ih1 _ _).mp hmem0
      by_cases hgt : v.confidence > c0
      · have hstep : best_by_type (l ++ [v]) =
            (best_by_type l).map
              (fun p => if p.1 = v.type then (p.1, v.confidence) else p) := by
          rw [hconcat]
          simp [best_by_type_step, hl, hgt]
        constructor
        · intro t c
          rw [hstep, List.mem_map]
          by_cases ht : t = v.type
          · subst ht
            rw [isBest_append_gt hbest0 hgt]
            constructor
            · rintro ⟨p, hp, hfp⟩
              by_cases hp1 : p.1 = v.type
              · rw [if_pos hp1] at hfp
                exact (congrArg Prod.snd hfp).symm
              · rw [if_neg hp1] at hfp
                exact absurd (congrArg Prod.fst hfp) hp1
            · rintro rfl
              exact ⟨(v.type, c0), hmem0, by simp⟩
          · rw [isBest_append_ne ht, ← ih1 t c]
            constructor
            · rintro ⟨p, hp, hfp⟩
              have hp1 : p.1 ≠ v.type := by
                intro hh
                rw [if_pos hh] at hfp
                exact ht ((congrArg Prod.fst hfp).symm.trans hh)
              rw [if_neg hp1] at hfp
              rw [← hfp]
              exact hp
            · intro hm
              refine ⟨(t, c), hm, ?_⟩
              simp [ht]
        · intro w hw
          rw [hstep]
          rcases List.mem_append.mp hw with hwl | hwv
          · obtain ⟨c, hc⟩ := ih2 w hwl
            by_cases hwt : w.type = v.type
            · refine ⟨v.confidence, List.mem_map.mpr ⟨(w.type, c), hc, ?_⟩⟩
              simp [hwt]
            · exact ⟨c, List.mem_map.mpr ⟨(w.type, c), hc, by simp [hwt]⟩⟩
          · have heq := List.mem_singleton.mp hwv
            rw [heq]
            exact ⟨v.confidence, List.mem_map.mpr ⟨(v.type, c0), hmem0, by simp⟩⟩
      · have hle : v.confidence ≤ c0 := not_lt.mp hgt
        have hstep : best_by_type (l ++ [v]) = best_by_type l := by
          rw [hconcat]
          simp [best_by_type_step, hl, hgt]
        constructor
        · intro t c
          rw [hstep]
          by_cases ht : t = v.type
          · subst ht
            rw [isBest_append_le hbest0 hle]
            constructor
            · intro hm
              exact isBest_unique ((ih1 _ _).mp hm) hbest0
            · rintro rfl
              exact hmem0
          · rw [isBest_append_ne ht]
            exact ih1 t c
        · intro w hw
          rw [hstep]
          rcases List.mem_append.mp hw with hwl | hwv
          · exact ih2 w hwl
          · have heq := List.mem_singleton.mp hwv
            rw [heq]
            exact ⟨c0, hmem0⟩

/-- Helper: membership characterization of `best_by_type`. -/
lemma best_by_type_mem_iff (violations : List Candidate) (t : String) (c : ℚ) :
    (t, c) ∈ best_by_type violations ↔ IsBest violations t c :=
  (best_by_type_char violations).1 t c

/-- C9: on a non-empty candidate list the photo handler's reported list
keeps, for each violation type, the single highest confidence attained by
that type (the stored value changes only on strictly greater confidence,
so ties keep the first instance), sorts the types by confidence descending
and presents at most the top 3; every per-type best left out is at most
every presented confidence. -/
theorem handle_photo_top3_spec (violations : List Candidate) :
    (handle_photo_ordered violations).length ≤ 3 ∧
    List.Sorted confDesc (handle_photo_ordered violations) ∧
    (∀ p ∈ handle_photo_ordered violations,
      (∃ v ∈ violations, v.type = p.1 ∧ v.confidence = p.2) ∧
      ∀ v ∈ violations, v.type = p.1 → v.confidence ≤ p.2) ∧
    ∀ q ∈ best_by_type violations, q ∉ handle_photo_ordered violations →
      ∀ p ∈ handle_photo_ordered violations, q.2 ≤ p.2 := by
  have hS : List.Sorted confDesc
      ((best_by_type violations).insertionSort confDesc) :=
    List.sorted_insertionSort confDesc _
  refine ⟨?_, ?_, ?_, ?_⟩
  · exact List.length_take_le 3 _
  · exact List.Pairwise.sublist (List.take_sublist 3 _) hS
  · rintro ⟨t, c⟩ hp
    have hpS : (t, c) ∈ (best_by_type violations).insertionSort confDesc :=
      List.mem_of_mem_take hp
    rw [List.mem_insertionSort] at hpS
    exact (best_by_type_mem_iff violations t c).mp hpS
  · intro q hqB hqnot p hp
    have hqS : q ∈ (best_by_type violations).insertionSort confDesc := by
      rw [List.mem_insertionSort]
      exact hqB
    have hsplit := List.take_append_drop 3
      ((best_by_type violations).insertionSort confDesc)
    have hqdrop : q ∈ ((best_by_type violations).insertionSort confDesc).drop 3 := by
      rw [← hsplit] at hqS
      rcases List.mem_append.mp hqS with h | h
      · exact absurd h hqnot
      · exact h
    have hpw : List.Pairwise confDesc
        (((best_by_type violations).insertionSort confDesc).take 3 ++
          ((best_by_type violations).insertionSort confDesc).drop 3) := by
      rw [hsplit]
      exact hS
    exact (List.pairwise_append.mp hpw).2.2 p hp q hqdrop

/-- Witness for C9: on a sample list with two smoking candidates (0.6 and
0.8) and one littering candidate (0.7), the handler reports smoking at 0.8
then littering at 0.7, and 0.8 is the per-type best for smoking. -/
theorem handle_photo_top3_spec_witness :
    handle_photo_ordered demoViolations =
      [("smoking", 0.8), ("littering", 0.7)] ∧
    (∃ v ∈ demoViolations, v.type = "smoking" ∧ v.confidence = 0.8) ∧
    ∀ v ∈ demoViolations, v.type = "smoking" → v.confidence ≤ 0.8 := by
  have heval : handle_photo_ordered demoViolations =
      [("smoking", 0.8), ("littering", 0.7)] := by
    have hls : ¬ ("littering" = "smoking") := by decide
    norm_num [handle_photo_ordered, best_by_type, best_by_type_step, List.foldl,
      List.insertionSort, List.orderedInsert, confDesc, demoViolations,
      List.lookup, hls]
  refine ⟨heval, ?_⟩
  exact (handle_photo_top3_spec demoViolations).2.2.1 ("smoking", 0.8)
    (by rw [heval]; exact List.mem_cons_self _ _)

end OntoAlert
